import Mathlib

/-!
Shallow embedding of the docker-backup daemon's coordination kernel:
label parsing (internal/config/labels.go), the cron scheduler state
(internal/scheduler), the coordinator's container sync
(internal/backup/manager.go), retention enforcement (internal/retention),
storage pool resolution (internal/storage, internal/config/config.go) and
the volume backup/restore pipeline (internal/backuptypes/volume/volume.go).

Go maps are modelled as association lists, filesystem and container-runtime
effects as explicit state records, and machine integers as Nat/Int.
-/

namespace DockerBackup

/-! ## Association lists (Go maps) -/

/-- Lookup in an association list (a Go map read). -/
def lookupStr {α : Type} : List (String × α) → String → Option α
  | [], _ => none
  | (k, v) :: rest, key => if k = key then some v else lookupStr rest key

/-- Remove every binding of `key` (a Go map delete). -/
def eraseKey {α : Type} (l : List (String × α)) (key : String) : List (String × α) :=
  l.filter (fun p => p.1 ≠ key)

/-- Insert or replace the binding of `key` (a Go map write). -/
def insertKey {α : Type} (l : List (String × α)) (key : String) (v : α) : List (String × α) :=
  eraseKey l key ++ [(key, v)]

/-! ## String helpers (Go strings/strconv), implemented over the char list -/

def charsToStr (cs : List Char) : String := String.mk cs

/-- Split a char list at every char satisfying `p`, keeping empty segments. -/
def splitPredAux (p : Char → Bool) : List Char → List Char → List (List Char)
  | acc, [] => [acc.reverse]
  | acc, x :: xs =>
      if p x then acc.reverse :: splitPredAux p [] xs else splitPredAux p (x :: acc) xs

/-- Split a string on a separator char, keeping empty segments
(Go `strings.Split` with a one-char separator). -/
def splitChar (c : Char) (s : String) : List String :=
  (splitPredAux (fun x => x = c) [] s.data).map charsToStr

/-- Go `strings.Fields`: split on whitespace, dropping empty segments. -/
def goFields (s : String) : List String :=
  ((splitPredAux Char.isWhitespace [] s.data).map charsToStr).filter (fun x => x ≠ "")

/-- Go `strings.TrimSpace`. -/
def goTrim (s : String) : String :=
  charsToStr (((s.data.dropWhile Char.isWhitespace).reverse.dropWhile Char.isWhitespace).reverse)

/-- Go `strings.HasPrefix`. -/
def strStartsWith (s pre : String) : Bool := pre.data.isPrefixOf s.data

/-- Drop the first `n` chars (Go `strings.TrimPrefix` once the prefix is known). -/
def strDropChars (s : String) (n : Nat) : String := charsToStr (s.data.drop n)

/-- Split at the first occurrence of `c`; `none` when `c` is absent. -/
def splitFirstAux (c : Char) : List Char → Option (List Char × List Char)
  | [] => none
  | x :: xs =>
      if x = c then some ([], xs)
      else match splitFirstAux c xs with
        | none => none
        | some (l, r) => some (x :: l, r)

/-- Split a string at the first occurrence of `c`
(Go `strings.SplitN(s, sep, 2)` for a one-char separator). -/
def splitFirstChar (c : Char) (s : String) : Option (String × String) :=
  (splitFirstAux c s.data).map (fun p => (charsToStr p.1, charsToStr p.2))

def digitVal (ch : Char) : Option Nat :=
  if '0' ≤ ch ∧ ch ≤ '9' then some (ch.toNat - 48) else none

def parseDigits : List Char → Option Nat
  | [] => none
  | cs => cs.foldl (fun acc ch => acc.bind (fun n => (digitVal ch).map (fun d => n * 10 + d)))
      (some 0)

/-- Go `strconv.ParseUint` (base 10), ignoring the 64-bit bound. -/
def parseUIntStr (s : String) : Option Nat := parseDigits s.data

/-- Go `strconv.Atoi`. -/
def goAtoi (s : String) : Option Int :=
  match s.data with
  | '-' :: rest => (parseDigits rest).map (fun n => -(n : Int))
  | '+' :: rest => (parseDigits rest).map (fun n => (n : Int))
  | l => (parseDigits l).map (fun n => (n : Int))

/-- Go `strconv.ParseBool`. -/
def goParseBool (s : String) : Option Bool :=
  if s = "1" ∨ s = "t" ∨ s = "T" ∨ s = "TRUE" ∨ s = "true" ∨ s = "True" then some true
  else if s = "0" ∨ s = "f" ∨ s = "F" ∨ s = "FALSE" ∨ s = "false" ∨ s = "False" then
    some false
  else none

/-- Go `strings.ToLower` restricted to ASCII letters (all inputs here are ASCII). -/
def asciiToLower (s : String) : String :=
  charsToStr (s.data.map (fun ch =>
    if 'A' ≤ ch ∧ ch ≤ 'Z' then Char.ofNat (ch.toNat + 32) else ch))

def strJoin (sep : String) : List String → String
  | [] => ""
  | [x] => x
  | x :: xs => x ++ sep ++ strJoin sep xs

/-! ## Label parsing (internal/config/labels.go) -/

/-- `config.BackupConfig`. -/
structure BackupConfig where
  name : String
  backupType : String
  schedule : String
  retention : Int
  storage : String
  notify : List String
deriving DecidableEq, Repr

/-- `config.ContainerConfig`. -/
structure ContainerConfig where
  containerID : String
  containerName : String
  enabled : Bool
  notify : List String
  backups : List BackupConfig
deriving DecidableEq, Repr

/-- `config.reservedProperties`. -/
def reservedProperties (s : String) : Bool :=
  s = "enable" ∨ s = "type" ∨ s = "schedule" ∨ s = "retention" ∨ s = "storage" ∨ s = "notify"

/-- `config.parseNotifyValue`. -/
def parseNotifyValue (val : String) : List String :=
  let v := goTrim val
  if v = "" then []
  else ((splitChar ',' v).map goTrim).filter (fun p => p ≠ "")

/-- `config.parseConfigGroup`: build one `BackupConfig` from its property bucket. -/
def parseConfigGroup (name containerName : String) (props : List (String × String)) :
    Except String BackupConfig :=
  let backupType := match lookupStr props "type" with
    | some v => goTrim v
    | none => ""
  if backupType = "" then
    Except.error
      ("container " ++ containerName ++ " config " ++ name ++ " has no backup type specified")
  else
    let schedule := match lookupStr props "schedule" with
      | some v => goTrim v
      | none => ""
    if schedule = "" then
      Except.error
        ("container " ++ containerName ++ " config " ++ name ++ " has no schedule specified")
    else
      let retentionRes : Except String Int := match lookupStr props "retention" with
        | none => Except.ok 7
        | some v =>
            match goAtoi v with
            | none => Except.error ("container " ++ containerName ++ " config " ++ name ++
                " has invalid retention")
            | some r =>
                if r < 1 then
                  Except.error ("container " ++ containerName ++ " config " ++ name ++
                    " retention must be at least 1")
                else Except.ok r
      match retentionRes with
      | Except.error e => Except.error e
      | Except.ok retention =>
          let storage := match lookupStr props "storage" with
            | some v => goTrim v
            | none => ""
          let notify := match lookupStr props "notify" with
            | some v => parseNotifyValue v
            | none => []
          Except.ok { name := name, backupType := backupType, schedule := schedule,
                      retention := retention, storage := storage, notify := notify }

/-- Add `prop ↦ val` to the bucket of `name`, creating the bucket if needed
(the nested-map insert of `parseNamedConfigs`). -/
def groupInsert (gs : List (String × List (String × String))) (name prop val : String) :
    List (String × List (String × String)) :=
  match lookupStr gs name with
  | some bucket => insertKey gs name (insertKey bucket prop val)
  | none => gs ++ [(name, [(prop, val)])]

/-- The label-grouping loop of `config.parseNamedConfigs`: bucket
`<prefix>.<name>.<property>` labels by `<name>`, skipping single-segment
labels and reserved `<name>`s. -/
def groupLabels (pfx : String) (labels : List (String × String)) :
    List (String × List (String × String)) :=
  let pfxDot := pfx ++ "."
  labels.foldl
    (fun gs kv =>
      if strStartsWith kv.1 pfxDot then
        let remainder := strDropChars kv.1 pfxDot.length
        match splitFirstChar '.' remainder with
        | none => gs
        | some (configName, property) =>
            if reservedProperties configName then gs
            else groupInsert gs configName property kv.2
      else gs)
    []

/-- Insertion sort by `BackupConfig.name` (the `sort.Slice` call of
`parseNamedConfigs`; names are unique, so the sorted order is unique). -/
def insertByName (b : BackupConfig) : List BackupConfig → List BackupConfig
  | [] => [b]
  | c :: cs => if b.name < c.name then b :: c :: cs else c :: insertByName b cs

def sortByName : List BackupConfig → List BackupConfig
  | [] => []
  | b :: bs => insertByName b (sortByName bs)

/-- The per-bucket loop of `parseNamedConfigs`: parse each bucket, aborting
on the first error. -/
def parseGroups (containerName : String) :
    List (String × List (String × String)) → Except String (List BackupConfig)
  | [] => Except.ok []
  | g :: gs =>
      match parseConfigGroup g.1 containerName g.2 with
      | Except.error e => Except.error e
      | Except.ok b =>
          match parseGroups containerName gs with
          | Except.error e => Except.error e
          | Except.ok bs => Except.ok (b :: bs)

/-- `config.parseNamedConfigs`. -/
def parseNamedConfigs (pfx containerName : String) (labels : List (String × String)) :
    Except String (List BackupConfig) :=
  match parseGroups containerName (groupLabels pfx labels) with
  | Except.error e => Except.error e
  | Except.ok backups => Except.ok (sortByName backups)

/-- `config.ParseLabels`. -/
def ParseLabels (containerID containerName : String) (labels : List (String × String)) :
    Except String ContainerConfig :=
  let enabledRes : Except String Bool := match lookupStr labels "docker-backup.enable" with
    | some v =>
        match goParseBool v with
        | some b => Except.ok b
        | none => Except.error "invalid value for docker-backup.enable"
    | none => Except.ok false
  match enabledRes with
  | Except.error e => Except.error e
  | Except.ok enabled =>
      if ¬ enabled then
        Except.ok { containerID := containerID, containerName := containerName,
                    enabled := false, notify := [], backups := [] }
      else
        match parseNamedConfigs "docker-backup" containerName labels with
        | Except.error e => Except.error e
        | Except.ok backups =>
            if backups.isEmpty then
              Except.error ("container " ++ containerName ++
                " has backup enabled but no backup configurations found")
            else
              Except.ok { containerID := containerID, containerName := containerName,
                          enabled := true,
                          notify := parseNotifyValue
                            ((lookupStr labels "docker-backup.notify").getD ""),
                          backups := backups }

/-! ## Cron schedule validity

Modelled from the spec: the Scheduler delegates schedule parsing to a
standard 5-field cron parser (minute, hour, day-of-month, month,
day-of-week) that rejects empty specs, `@` descriptor shortcuts, and any
field count other than 5; each field is a comma list of ranges
`*`, `?`, `N`, `N-M`, optionally with a `/step` suffix, with numeric
bounds per field and 3-letter month / day names. The parser library
itself is not part of this repository's sources. -/

structure CronBounds where
  lo : Nat
  hi : Nat
  names : List (String × Nat)

def cronParseIntOrName (names : List (String × Nat)) (s : String) : Option Nat :=
  match lookupStr names (asciiToLower s) with
  | some n => some n
  | none => parseUIntStr s

/-- Validity of one comma-separated range item of a cron field. -/
def cronRangeValid (b : CronBounds) (expr : String) : Bool :=
  let rangeAndStep := splitChar '/' expr
  let checkRange (rng : String) (hasStep : Bool) : Option (Nat × Nat) :=
    let lowAndHigh := splitChar '-' rng
    match lowAndHigh with
    | [] => none
    | low :: rest =>
        if low = "*" ∨ low = "?" then some (b.lo, b.hi)
        else
          match cronParseIntOrName b.names low with
          | none => none
          | some start =>
              match rest with
              | [] => some (start, if hasStep then b.hi else start)
              | [high] =>
                  match cronParseIntOrName b.names high with
                  | none => none
                  | some e => some (start, e)
              | _ => none
  let checked : Option (Nat × Nat × Nat) :=
    match rangeAndStep with
    | [rng] => (checkRange rng false).map (fun p => (p.1, p.2, 1))
    | [rng, stepStr] =>
        match parseUIntStr stepStr with
        | none => none
        | some step => (checkRange rng true).map (fun p => (p.1, p.2, step))
    | _ => none
  match checked with
  | none => false
  | some (start, stop, step) =>
      decide (b.lo ≤ start) && decide (stop ≤ b.hi) && decide (start ≤ stop) && (step != 0)

/-- Validity of one whole cron field (comma list; empty items are dropped,
as `strings.FieldsFunc` does). -/
def cronFieldValid (b : CronBounds) (field : String) : Bool :=
  (((splitChar ',' field).filter (fun x => x ≠ ""))).all (cronRangeValid b)

def cronMinute : CronBounds := ⟨0, 59, []⟩
def cronHour : CronBounds := ⟨0, 23, []⟩
def cronDom : CronBounds := ⟨1, 31, []⟩
def cronMonth : CronBounds :=
  ⟨1, 12, [("jan", 1), ("feb", 2), ("mar", 3), ("apr", 4), ("may", 5), ("jun", 6),
           ("jul", 7), ("aug", 8), ("sep", 9), ("oct", 10), ("nov", 11), ("dec", 12)]⟩
def cronDow : CronBounds :=
  ⟨0, 6, [("sun", 0), ("mon", 1), ("tue", 2), ("wed", 3), ("thu", 4), ("fri", 5),
          ("sat", 6)]⟩

/-- Validity of a 5-field cron spec under the Scheduler's parser options. -/
def cronValid (spec : String) : Bool :=
  if spec = "" then false
  else if strStartsWith spec "@" then false
  else
    match goFields spec with
    | [f1, f2, f3, f4, f5] =>
        cronFieldValid cronMinute f1 && cronFieldValid cronHour f2 &&
        cronFieldValid cronDom f3 && cronFieldValid cronMonth f4 &&
        cronFieldValid cronDow f5
    | _ => false

/-! ## Scheduler state (internal/scheduler, part of the repository sources)

The scheduler owns a `jobKey → cron entry` map; an entry is observable
through its schedule string. `AddJob` first removes any existing entry for
the key, then asks the cron library to parse the schedule; `addJob` is
parameterized by that parser's acceptance predicate. -/

abbrev SchedJobs := List (String × String)

/-- `Scheduler.AddJob`: returns the error (if any) and the resulting job map. -/
def addJob (parseOk : String → Bool) (jobs : SchedJobs) (key sched : String) :
    Option String × SchedJobs :=
  let jobs1 := eraseKey jobs key
  if parseOk sched then (none, insertKey jobs1 key sched)
  else (some "invalid schedule", jobs1)

/-- `Scheduler.RemoveJob`. -/
def removeJob (jobs : SchedJobs) (key : String) : SchedJobs := eraseKey jobs key

/-! ## Storage pools (internal/storage/pool + internal/config/config.go) -/

inductive PoolErr where
  | unknownPool (name : String)
  | noDefault
deriving DecidableEq, Repr

/-- `storage.PoolManager`: the sinks themselves are identified by their pool
name; only name → sink resolution is relevant here. -/
structure PoolManager where
  pools : List String
  defaultPool : String
deriving DecidableEq, Repr

/-- `PoolManager.Get`. -/
def PoolManager.get (pm : PoolManager) (name : String) : Except PoolErr String :=
  if pm.pools.contains name then Except.ok name else Except.error (PoolErr.unknownPool name)

/-- `PoolManager.GetDefault`. -/
def PoolManager.getDefault (pm : PoolManager) : Except PoolErr String :=
  if pm.defaultPool = "" then Except.error PoolErr.noDefault else pm.get pm.defaultPool

/-- `PoolManager.GetForContainer`. -/
def PoolManager.getForContainer (pm : PoolManager) (storageName : String) :
    Except PoolErr String :=
  if storageName ≠ "" then pm.get storageName else pm.getDefault

/-- The default-storage selection and validation of
`Config.ParseStoragePools` (config.go lines 100-119): pick the single pool
as default when none is configured, otherwise fall back to the
`DOCKER_BACKUP_DEFAULT_STORAGE` environment value, then require the chosen
default to exist. -/
def resolveDefaultStorage (defaultStorage : String) (poolNames : List String)
    (envDefault : String) : Except String String :=
  let d1 := if defaultStorage = "" ∧ poolNames.length = 1 then poolNames.headD ""
            else defaultStorage
  let d2 := if d1 = "" ∧ envDefault ≠ "" then envDefault else d1
  if d2 ≠ "" ∧ ¬ poolNames.contains d2 then
    Except.error ("default storage pool " ++ d2 ++ " does not exist")
  else Except.ok d2

/-! ## Coordinator (internal/backup/manager.go) -/

/-- What the coordinator reads from the runtime for one container. -/
structure RuntimeContainer where
  id : String
  name : String
  labels : List (String × String)

/-- The dependencies `scheduleBackupConfig` consults: the registered backup
types, the pool manager, and the cron parser's acceptance predicate. -/
structure Env where
  types : List String
  pm : PoolManager
  cronOk : String → Bool

/-- The state the Manager owns: the tracked `containerID → ContainerConfig`
map and the Scheduler's job map. -/
structure MgrState where
  containers : List (String × ContainerConfig)
  jobs : SchedJobs

/-- `Manager.makeJobKey`. -/
def makeJobKey (containerID configName : String) : String :=
  containerID ++ ":" ++ configName

/-- `backup.configsEqual`: compares names, types, schedules, retention and
storage — but not the notify lists. -/
def configsEqual (a b : List BackupConfig) : Bool :=
  a.length = b.length &&
  (a.zip b).all (fun p =>
    p.1.name = p.2.name && p.1.backupType = p.2.backupType &&
    p.1.schedule = p.2.schedule && p.1.retention = p.2.retention &&
    p.1.storage = p.2.storage)

/-- `Manager.scheduleBackupConfig`: skip unknown backup types and
unresolvable pools, otherwise hand the job to the scheduler (whose state
changes even when the schedule fails to parse). -/
def scheduleBackupConfig (env : Env) (containerID : String) (b : BackupConfig)
    (jobs : SchedJobs) : SchedJobs :=
  if ¬ env.types.contains b.backupType then jobs
  else
    match env.pm.getForContainer b.storage with
    | Except.error _ => jobs
    | Except.ok _ => (addJob env.cronOk jobs (makeJobKey containerID b.name) b.schedule).2

/-- `Manager.scheduleContainer`: drop the previous config's jobs, store the
new config, schedule each of its backups. -/
def scheduleContainer (env : Env) (st : MgrState) (containerID : String)
    (cfg : ContainerConfig) : MgrState :=
  let jobs1 := match lookupStr st.containers containerID with
    | some old => old.backups.foldl (fun js b => removeJob js (makeJobKey containerID b.name))
        st.jobs
    | none => st.jobs
  let containers1 := insertKey st.containers containerID cfg
  let jobs2 := cfg.backups.foldl (fun js b => scheduleBackupConfig env containerID b js) jobs1
  { containers := containers1, jobs := jobs2 }

/-- One iteration of the container loop in `Manager.syncContainers`. -/
def syncOne (env : Env) (st : MgrState) (c : RuntimeContainer) : MgrState :=
  match ParseLabels c.id c.name c.labels with
  | Except.error _ => st
  | Except.ok cfg =>
      if ¬ cfg.enabled then st
      else
        match lookupStr st.containers c.id with
        | some old => if configsEqual old.backups cfg.backups then st
                      else scheduleContainer env st c.id cfg
        | none => scheduleContainer env st c.id cfg

/-- The removal loop of `Manager.syncContainers`: drop every tracked
container the runtime no longer reports, together with its jobs. -/
def removeAbsent (st : MgrState) (seen : List String) : MgrState :=
  st.containers.foldl
    (fun acc p =>
      if seen.contains p.1 then acc
      else
        { containers := eraseKey acc.containers p.1,
          jobs := p.2.backups.foldl (fun js b => removeJob js (makeJobKey p.1 b.name))
            acc.jobs })
    st

/-- `Manager.syncContainers`. -/
def syncContainers (env : Env) (st : MgrState) (runtime : List RuntimeContainer) : MgrState :=
  let st1 := runtime.foldl (syncOne env) st
  removeAbsent st1 (runtime.map (fun c => c.id))

/-- `Manager.addContainer` (the "start" event path): like `syncOne` but
without the unchanged-config short-circuit. -/
def addContainer (env : Env) (st : MgrState) (c : RuntimeContainer) : MgrState :=
  match ParseLabels c.id c.name c.labels with
  | Except.error _ => st
  | Except.ok cfg => if ¬ cfg.enabled then st else scheduleContainer env st c.id cfg

/-- `Manager.removeContainer` (the "stop"/"die" event path). -/
def removeContainer (st : MgrState) (containerID : String) : MgrState :=
  match lookupStr st.containers containerID with
  | some cfg =>
      { containers := eraseKey st.containers containerID,
        jobs := cfg.backups.foldl (fun js b => removeJob js (makeJobKey containerID b.name))
          st.jobs }
  | none => st

/-- `Manager.getNotifyProviders`: per-config notify overrides the
container-level list. -/
def getNotifyProviders (cfg : ContainerConfig) (backup : BackupConfig) : List String :=
  if backup.notify.length > 0 then backup.notify else cfg.notify

/-! ## Retention enforcement (internal/retention + storage listing) -/

/-- `storage.BackupFile`; `lastModified` is the sink timestamp with
`time.After` as strict order. -/
structure BackupFile where
  key : String
  lastModified : Int
deriving DecidableEq, Repr

/-- Insertion step with the comparator of `retention.Manager.Enforce`
(`files[i].LastModified.After(files[j].LastModified)`). -/
def insertByNewest (f : BackupFile) : List BackupFile → List BackupFile
  | [] => [f]
  | g :: gs =>
      if g.lastModified < f.lastModified then f :: g :: gs else g :: insertByNewest f gs

/-- The `sort.Slice` call of `Enforce`: newest first. -/
def sortByNewest : List BackupFile → List BackupFile
  | [] => []
  | f :: fs => insertByNewest f (sortByNewest fs)

/-- The entries `Enforce` attempts to delete: everything past the first
`keep` entries of the descending listing, unless the listing already fits. -/
def enforceVictims (files : List BackupFile) (keep : Int) : List BackupFile :=
  if (files.length : Int) ≤ keep then [] else (sortByNewest files).drop keep.toNat

/-- The entries whose `Delete` call succeeds (`delOk` is the sink's
per-key delete outcome; failures are logged and skipped). -/
def enforceDeleted (files : List BackupFile) (keep : Int) (delOk : String → Bool) :
    List BackupFile :=
  (enforceVictims files keep).filter (fun f => delOk f.key)

/-- `retention.Manager.Enforce`: `resolveOk` is the pool lookup outcome and
`listing` the sink's `List` result; the returned count is the number of
successful deletes, and per-key delete failures produce no error. -/
def Enforce (resolveOk : Bool) (listing : Except String (List BackupFile)) (keep : Int)
    (delOk : String → Bool) : Except String Nat :=
  if ¬ resolveOk then Except.error "storage pool not found"
  else
    match listing with
    | Except.error e => Except.error e
    | Except.ok files => Except.ok (enforceDeleted files keep delOk).length

/-- The sink contents after `Enforce` ran over `files`: everything except
the successfully deleted entries. -/
def remainingAfterEnforce (files : List BackupFile) (keep : Int) (delOk : String → Bool) :
    List BackupFile :=
  files.filter (fun f => decide (f ∉ enforceDeleted files keep delOk))

/-! ## Path arithmetic (path/filepath on a Unix host) -/

/-- The element stack of Go `filepath.Clean`, kept in reverse order. -/
def cleanStack (rooted : Bool) : List String → List String → List String
  | stack, [] => stack
  | stack, p :: ps =>
      if p = "" ∨ p = "." then cleanStack rooted stack ps
      else if p = ".." then
        match stack with
        | [] => if rooted then cleanStack rooted [] ps else cleanStack rooted [".."] ps
        | top :: rest =>
            if top = ".." then cleanStack rooted (".." :: stack) ps
            else cleanStack rooted rest ps
      else cleanStack rooted (p :: stack) ps

/-- Go `filepath.Clean` with `/` as separator. -/
def filepathClean (path : String) : String :=
  if path = "" then "."
  else
    let rooted := strStartsWith path "/"
    let stack := (cleanStack rooted [] (splitChar '/' path)).reverse
    let out := strJoin "/" stack
    if rooted then (if out = "" then "/" else "/" ++ out)
    else (if out = "" then "." else out)

/-- Go `filepath.Join` for two elements. -/
def filepathJoin (a b : String) : String :=
  if a = "" ∧ b = "" then ""
  else if a = "" then filepathClean b
  else if b = "" then filepathClean a
  else filepathClean (a ++ "/" ++ b)

/-- `volume.isSubPath`. -/
def isSubPath (parent child : String) : Bool :=
  let p := filepathClean parent
  let c := filepathClean child
  c = p || strStartsWith c (p ++ "/")

/-! ## Volume backup/restore (internal/backuptypes/volume/volume.go) -/

/-- `docker.MountInfo` (the fields `VolumeBackup` reads). -/
structure MountInfo where
  typ : String
  name : String
  source : String
deriving DecidableEq, Repr

inductive TarTypeflag where
  | dir
  | reg
  | symlink
  | other
deriving DecidableEq, Repr

structure TarEntry where
  name : String
  typeflag : TarTypeflag
deriving DecidableEq, Repr

/-- The filesystem effects of `VolumeBackup.Restore`: which volumes were
cleared and which target paths were written (created / truncated /
symlinked). -/
structure RestoreFS where
  cleared : List String
  written : List String
deriving DecidableEq, Repr

/-- The volume-name / relative-path split of the restore loop: the part
before the first `/`, falling back to the whole name with relPath `"."`
when the first segment is empty or no `/` occurs. -/
def splitVolumeName (name : String) : String × String :=
  match splitFirstChar '/' name with
  | some (v, r) => if v = "" then (name, ".") else (v, r)
  | none => (name, ".")

/-- The `volumePaths` map built from the container's mounts. -/
def volumePathsOf (mounts : List MountInfo) : List (String × String) :=
  mounts.foldl (fun acc m => if m.typ = "volume" then insertKey acc m.name m.source else acc)
    []

/-- One iteration of the tar-entry loop of `VolumeBackup.Restore`. Note the
order: the entry's volume is cleared (on first touch) before the
containment check on the entry's resolved target runs. -/
def restoreStep (volumePaths : List (String × String)) (fs : RestoreFS) (e : TarEntry) :
    RestoreFS × Option String :=
  if e.name = "" then (fs, none)
  else
    let vr := splitVolumeName e.name
    match lookupStr volumePaths vr.1 with
    | none => (fs, none)
    | some volumePath =>
        let fs1 := if fs.cleared.contains vr.1 then fs
                   else { fs with cleared := fs.cleared ++ [vr.1] }
        let targetPath := filepathJoin volumePath vr.2
        if ¬ isSubPath volumePath targetPath then
          (fs1, some ("invalid path in archive: " ++ e.name))
        else
          match e.typeflag with
          | TarTypeflag.other => (fs1, none)
          | _ => ({ fs1 with written := fs1.written ++ [targetPath] }, none)

def restoreEntries (volumePaths : List (String × String)) (fs : RestoreFS) :
    List TarEntry → RestoreFS × Option String
  | [] => (fs, none)
  | e :: es =>
      match restoreStep volumePaths fs e with
      | (fs1, some err) => (fs1, some err)
      | (fs1, none) => restoreEntries volumePaths fs1 es

/-- The filesystem part of `VolumeBackup.Restore` (container stop/start
handling is modelled separately below). -/
def VolumeRestore (mounts : List MountInfo) (entries : List TarEntry) :
    RestoreFS × Option String :=
  let fs0 : RestoreFS := { cleared := [], written := [] }
  if mounts.isEmpty then (fs0, some "no mounted volumes")
  else
    let vp := volumePathsOf mounts
    if vp.isEmpty then (fs0, some "no named volumes to restore")
    else restoreEntries vp fs0 entries

/-! ## Container quiescence (the stop/restart phase shared by
`VolumeBackup.Backup` and `VolumeBackup.Restore`) -/

structure ContainerBrief where
  id : String
  running : Bool
deriving DecidableEq, Repr

/-- The container observations of the stop loop, in traversal order:
per volume, `GetContainersUsingVolume` either fails (volume skipped) or
yields its consumers. -/
def observationsFor (usersOf : String → Option (List ContainerBrief))
    (volumes : List String) : List ContainerBrief :=
  volumes.foldl (fun acc v => match usersOf v with | none => acc | some cs => acc ++ cs) []

/-- The stop loop: record each first-seen container with whether this run
stopped it; a failed `StopContainer` aborts with the map built so far. -/
def stopPhase (stopOk : String → Bool) :
    List ContainerBrief → List (String × Bool) → List (String × Bool) × Option String
  | [], m => (m, none)
  | c :: cs, m =>
      if (lookupStr m c.id).isSome then stopPhase stopOk cs m
      else if c.running then
        if stopOk c.id then stopPhase stopOk cs (m ++ [(c.id, true)])
        else (m, some ("failed to stop container " ++ c.id))
      else stopPhase stopOk cs (m ++ [(c.id, false)])

/-- `VolumeBackup.restartContainers`: start exactly the map entries marked
as stopped by this run. -/
def restartContainers (m : List (String × Bool)) : List String :=
  (m.filter (fun p => p.2)).map (fun p => p.1)

/-- The containers started again by a volume backup/restore run, on any
exit path: the stop loop either completes (deferred restart of the full
map) or aborts (immediate restart of the partial map); in both cases
exactly the map's stopped entries are started. -/
def volumeRunRestarted (volumes : List String)
    (usersOf : String → Option (List ContainerBrief)) (stopOk : String → Bool) :
    List String :=
  restartContainers (stopPhase stopOk (observationsFor usersOf volumes) []).1

/-- A container's running state at its first observation during the run. -/
def firstObserved : List ContainerBrief → String → Option Bool
  | [], _ => none
  | c :: cs, i => if c.id = i then some c.running else firstObserved cs i

/-! ## Backup keys (Manager.generateBackupKey) -/

/-- A wall-clock instant at one-second resolution. -/
structure DateTime where
  year : Nat
  month : Nat
  day : Nat
  hour : Nat
  minute : Nat
  second : Nat
deriving DecidableEq, Repr

def digitChar (d : Nat) : Char := Char.ofNat (48 + d)

/-- Two-digit zero-padded decimal (for values below 100). -/
def pad2 (n : Nat) : String := charsToStr [digitChar (n / 10), digitChar (n % 10)]

/-- Four-digit zero-padded decimal (for values below 10000). -/
def pad4 (n : Nat) : String :=
  charsToStr [digitChar (n / 1000), digitChar (n / 100 % 10), digitChar (n / 10 % 10),
    digitChar (n % 10)]

/-- Modelled from the spec: Go `t.Format("2006-01-02")` (zero-padded
year-month-day; the time formatting library is outside the repository). -/
def formatDate (t : DateTime) : String :=
  pad4 t.year ++ "-" ++ pad2 t.month ++ "-" ++ pad2 t.day

/-- Modelled from the spec: Go `t.Format("150405")` (zero-padded
hour-minute-second). -/
def formatHHMMSS (t : DateTime) : String :=
  pad2 t.hour ++ pad2 t.minute ++ pad2 t.second

/-- `Manager.generateBackupKey`:
`container-name/config-name/YYYY-MM-DD/HHMMSS<extension>`. -/
def generateBackupKey (containerName path extension : String) (t : DateTime) : String :=
  containerName ++ "/" ++ path ++ "/" ++ formatDate t ++ "/" ++ formatHHMMSS t ++ extension

/-- A calendar-valid wall-clock instant. -/
def validDateTime (t : DateTime) : Prop :=
  t.year ≤ 9999 ∧ 1 ≤ t.month ∧ t.month ≤ 12 ∧ 1 ≤ t.day ∧ t.day ≤ 31 ∧
  t.hour ≤ 23 ∧ t.minute ≤ 59 ∧ t.second ≤ 59

instance (t : DateTime) : Decidable (validDateTime t) := by
  unfold validDateTime
  infer_instance

deriving instance DecidableEq for Except

/-! ## Concrete fixtures used to instantiate the theorems -/

/-- A registry / pool environment: the two shipped producers relevant here,
one local pool that is the default, and the cron validity model. -/
def envX : Env :=
  { types := ["postgres", "volume"], pm := ⟨["local"], "local"⟩, cronOk := cronValid }

def dbConfig : BackupConfig :=
  { name := "db", backupType := "postgres", schedule := "0 3 * * *", retention := 7,
    storage := "", notify := [] }

def cfgOldX : ContainerConfig :=
  { containerID := "X", containerName := "x", enabled := true, notify := ["telegram"],
    backups := [dbConfig] }

def stX : MgrState := { containers := [("X", cfgOldX)], jobs := [("X:db", "0 3 * * *")] }

/-- Labels that disable backups for the tracked container `X`. -/
def labelsDisabledX : List (String × String) := [("docker-backup.enable", "false")]

/-- Labels equal to `cfgOldX`'s except for the container-level notify list. -/
def labelsNotifyX : List (String × String) :=
  [("docker-backup.enable", "true"), ("docker-backup.notify", "discord"),
   ("docker-backup.db.type", "postgres"), ("docker-backup.db.schedule", "0 3 * * *")]

def cfgNewX : ContainerConfig :=
  { containerID := "X", containerName := "x", enabled := true, notify := ["discord"],
    backups := [dbConfig] }

/-- One volume `v` used by a running container `a` and a stopped container
`b`. -/
def usersOfX : String → Option (List ContainerBrief) := fun v =>
  if v = "v" then some [⟨"a", true⟩, ⟨"b", false⟩] else none

def stopOkX : String → Bool := fun _ => true

end DockerBackup

namespace DockerBackup

/-! ## Association-list lemmas -/

theorem lookupStr_cons {α : Type} (a : String) (v : α) (l : List (String × α)) (key : String) :
    lookupStr ((a, v) :: l) key = if a = key then some v else lookupStr l key := rfl

theorem eraseKey_cons {α : Type} (a : String) (v : α) (rest : List (String × α))
    (k : String) :
    eraseKey ((a, v) :: rest) k =
      if a = k then eraseKey rest k else (a, v) :: eraseKey rest k := by
  by_cases h : a = k <;> simp [eraseKey, List.filter_cons, h]

theorem lookupStr_eraseKey_self {α : Type} (l : List (String × α)) (k : String) :
    lookupStr (eraseKey l k) k = none := by
  induction l with
  | nil => rfl
  | cons p rest ih =>
      obtain ⟨a, v⟩ := p
      rw [eraseKey_cons]
      by_cases h : a = k
      · simpa [h] using ih
      · simp [h, lookupStr_cons, ih]

theorem lookupStr_eraseKey_ne {α : Type} (l : List (String × α)) (k key : String)
    (h : key ≠ k) : lookupStr (eraseKey l k) key = lookupStr l key := by
  induction l with
  | nil => rfl
  | cons p rest ih =>
      obtain ⟨a, v⟩ := p
      rw [eraseKey_cons]
      by_cases ha : a = k
      · subst ha
        have hne : ¬ a = key := fun hc => h (Eq.symm hc)
        rw [if_pos rfl, ih, lookupStr_cons, if_neg hne]
      · rw [if_neg ha, lookupStr_cons, lookupStr_cons]
        by_cases hk : a = key
        · rw [if_pos hk, if_pos hk]
        · rw [if_neg hk, if_neg hk, ih]

theorem lookupStr_append {α : Type} (l₁ l₂ : List (String × α)) (key : String) :
    lookupStr (l₁ ++ l₂) key =
      match lookupStr l₁ key with
      | some v => some v
      | none => lookupStr l₂ key := by
  induction l₁ with
  | nil => rfl
  | cons p rest ih =>
      obtain ⟨a, v⟩ := p
      by_cases h : a = key
      · simp [lookupStr_cons, h]
      · simp [lookupStr_cons, h, ih]

theorem lookupStr_append_of_some {α : Type} {l₁ : List (String × α)}
    (l₂ : List (String × α)) {i : String} {v : α} (h : lookupStr l₁ i = some v) :
    lookupStr (l₁ ++ l₂) i = some v := by
  rw [lookupStr_append, h]

theorem lookupStr_append_of_none {α : Type} {l₁ : List (String × α)}
    (l₂ : List (String × α)) {i : String} (h : lookupStr l₁ i = none) :
    lookupStr (l₁ ++ l₂) i = lookupStr l₂ i := by
  rw [lookupStr_append, h]

theorem lookupStr_insertKey_self {α : Type} (l : List (String × α)) (k : String) (v : α) :
    lookupStr (insertKey l k v) k = some v := by
  rw [insertKey, lookupStr_append, lookupStr_eraseKey_self]
  simp [lookupStr_cons]

theorem lookupStr_insertKey_ne {α : Type} (l : List (String × α)) (k key : String) (v : α)
    (h : key ≠ k) : lookupStr (insertKey l k v) key = lookupStr l key := by
  rw [insertKey, lookupStr_append, lookupStr_eraseKey_ne l k key h]
  cases hl : lookupStr l key with
  | some w => rfl
  | none =>
      rw [lookupStr_cons, if_neg (fun hc : k = key => h (Eq.symm hc))]
      rfl

theorem lookupStr_mem {α : Type} {l : List (String × α)} {k : String} {v : α}
    (h : lookupStr l k = some v) : (k, v) ∈ l := by
  induction l with
  | nil => exact absurd h (by simp [lookupStr])
  | cons p rest ih =>
      obtain ⟨a, w⟩ := p
      rw [lookupStr_cons] at h
      by_cases ha : a = k
      · simp only [ha, if_pos rfl] at h
        injection h with h
        subst ha h
        exact List.mem_cons_self _ _
      · simp only [ha, if_neg ha] at h
        exact List.mem_cons_of_mem _ (ih h)

/-! ## C2: Scheduler.AddJob on an invalid schedule -/

/-- C2 (amended): `AddJob` with a schedule the cron parser rejects returns
an error and inserts nothing, and entries under other keys are untouched;
the theorem is stated for any parser acceptance predicate. Together with
`addJob_invalid_removes_existing_cex` this shows the pre-existing entry
under the same key is removed, not preserved. -/
theorem addJob_invalid_schedule_no_insert (parseOk : String → Bool) (jobs : SchedJobs)
    (key sched : String) (h : parseOk sched = false) :
    (addJob parseOk jobs key sched).1.isSome = true ∧
    lookupStr (addJob parseOk jobs key sched).2 key = none ∧
    ∀ k, k ≠ key → lookupStr (addJob parseOk jobs key sched).2 k = lookupStr jobs k := by
  unfold addJob
  rw [h]
  simp only [Bool.false_eq_true, if_false]
  exact ⟨rfl, lookupStr_eraseKey_self jobs key,
    fun k hk => lookupStr_eraseKey_ne jobs key k hk⟩

/-- C2 (counterexample): the scheduler holds an entry for `c1`; `AddJob`
with an invalid schedule returns the parse error, yet the previous entry
for `c1` is gone afterwards — the job map was mutated. -/
theorem addJob_invalid_removes_existing_cex :
    lookupStr [("c1", "0 3 * * *")] "c1" = some "0 3 * * *" ∧
    cronValid "invalid cron" = false ∧
    (addJob cronValid [("c1", "0 3 * * *")] "c1" "invalid cron").1 = some "invalid schedule" ∧
    lookupStr (addJob cronValid [("c1", "0 3 * * *")] "c1" "invalid cron").2 "c1" = none := by
  decide

/-- C2 (witness): the amended theorem applied at a concrete scheduler state. -/
theorem addJob_invalid_schedule_no_insert_witness :
    cronValid "not a schedule" = false ∧
    lookupStr (addJob cronValid [("c1", "0 3 * * *")] "c2" "not a schedule").2 "c2" = none :=
  ⟨by decide, (addJob_invalid_schedule_no_insert cronValid [("c1", "0 3 * * *")] "c2"
      "not a schedule" (by decide)).2.1⟩

/-! ## C9: storage pool resolution -/

/-- C9: `GetForContainer` returns the named sink when the name is non-empty
and registered, an unknown-pool error when non-empty and unregistered, the
default pool's sink when the name is empty and a registered default exists,
and a no-default error when the name is empty and no default is set;
and a single configured pool becomes the default when none is configured. -/
theorem pool_resolution_cases (pm : PoolManager) (name : String) :
    (name ≠ "" → pm.pools.contains name = true →
      pm.getForContainer name = Except.ok name) ∧
    (name ≠ "" → pm.pools.contains name = false →
      pm.getForContainer name = Except.error (PoolErr.unknownPool name)) ∧
    (pm.defaultPool = "" → pm.getForContainer "" = Except.error PoolErr.noDefault) ∧
    (pm.defaultPool ≠ "" → pm.pools.contains pm.defaultPool = true →
      pm.getForContainer "" = Except.ok pm.defaultPool) ∧
    (∀ p env, p ≠ "" → resolveDefaultStorage "" [p] env = Except.ok p) := by
  refine ⟨?_, ?_, ?_, ?_, ?_⟩
  · intro hne hc
    simp at hc
    simp [PoolManager.getForContainer, PoolManager.get, hne, hc]
  · intro hne hc
    simp at hc
    simp [PoolManager.getForContainer, PoolManager.get, hne, hc]
  · intro hd
    simp [PoolManager.getForContainer, PoolManager.getDefault, hd]
  · intro hd hc
    simp at hc
    simp [PoolManager.getForContainer, PoolManager.getDefault, PoolManager.get, hd, hc]
  · intro p env hp
    simp [resolveDefaultStorage, hp]

/-- C9 (witness): resolution at a concrete pool manager. -/
theorem pool_resolution_cases_witness :
    (PoolManager.mk ["local", "s3"] "local").getForContainer "s3" = Except.ok "s3" :=
  (pool_resolution_cases ⟨["local", "s3"], "local"⟩ "s3").1 (by decide) (by decide)

/-! ## C3 / C10: coordinator reconciliation -/

theorem removeAbsent_all_seen (st : MgrState) (seen : List String)
    (h : ∀ p ∈ st.containers, seen.contains p.1 = true) :
    removeAbsent st seen = st := by
  unfold removeAbsent
  have main : ∀ (l : List (String × ContainerConfig)),
      (∀ p ∈ l, seen.contains p.1 = true) →
      l.foldl
        (fun acc p =>
          if seen.contains p.1 then acc
          else
            { containers := eraseKey acc.containers p.1,
              jobs := p.2.backups.foldl (fun js b => removeJob js (makeJobKey p.1 b.name))
                acc.jobs })
        st = st := by
    intro l hl
    induction l with
    | nil => rfl
    | cons p ps ih =>
        rw [List.foldl_cons, if_pos (hl p (List.mem_cons_self p ps))]
        exact ih (fun q hq => hl q (List.mem_cons_of_mem p hq))
  exact main st.containers h

/-- C3 (amended): a reconciliation that re-inspects container `C` and finds
that the new labels fail to parse or yield a disabled plan merely skips
`C`: `C`'s existing plans-map entry and its scheduled jobs remain in place
(for both the resync path and the "start"-event path). Entries are removed
only by stop/die events or when the runtime stops reporting the container. -/
theorem sync_disabled_skips_container (env : Env) (cfgOld : ContainerConfig)
    (jobs : SchedJobs) (c : RuntimeContainer)
    (h : (∃ e, ParseLabels c.id c.name c.labels = Except.error e) ∨
         (∃ cfg, ParseLabels c.id c.name c.labels = Except.ok cfg ∧ cfg.enabled = false)) :
    syncContainers env ⟨[(c.id, cfgOld)], jobs⟩ [c] = ⟨[(c.id, cfgOld)], jobs⟩ ∧
    (∀ st : MgrState, addContainer env st c = st) := by
  have hone : ∀ st : MgrState, syncOne env st c = st := by
    intro st
    unfold syncOne
    rcases h with ⟨e, he⟩ | ⟨cfg, hok, hen⟩
    · rw [he]
    · rw [hok]
      simp [hen]
  constructor
  · show removeAbsent (List.foldl (syncOne env) ⟨[(c.id, cfgOld)], jobs⟩ [c])
      ([c].map (fun x => x.id)) = _
    rw [List.foldl_cons, List.foldl_nil, hone]
    refine removeAbsent_all_seen _ _ ?_
    intro p hp
    obtain rfl := List.mem_singleton.mp hp
    simp
  · intro st
    unfold addContainer
    rcases h with ⟨e, he⟩ | ⟨cfg, hok, hen⟩
    · rw [he]
    · rw [hok]
      simp [hen]

/-- C3 (counterexample): container `X` is tracked with a scheduled job; the
runtime still reports `X` but with labels now disabled. After a resync the
plans-map entry and the scheduler entry are both still present — the
coordinator did not treat `X` as absent. -/
theorem sync_disabled_keeps_entry_cex :
    ParseLabels "X" "x" labelsDisabledX = Except.ok ⟨"X", "x", false, [], []⟩ ∧
    lookupStr (syncContainers envX stX [⟨"X", "x", labelsDisabledX⟩]).containers "X" =
      some cfgOldX ∧
    lookupStr (syncContainers envX stX [⟨"X", "x", labelsDisabledX⟩]).jobs "X:db" =
      some "0 3 * * *" := by
  decide

/-- C3 (witness): the amended theorem applied at the concrete fixture. -/
theorem sync_disabled_skips_container_witness :
    syncContainers envX ⟨[("X", cfgOldX)], [("X:db", "0 3 * * *")]⟩
      [⟨"X", "x", labelsDisabledX⟩] = ⟨[("X", cfgOldX)], [("X:db", "0 3 * * *")]⟩ :=
  (sync_disabled_skips_container envX cfgOldX [("X:db", "0 3 * * *")]
    ⟨"X", "x", labelsDisabledX⟩
    (Or.inr ⟨⟨"X", "x", false, [], []⟩, by decide, by decide⟩)).1

/-- C10: when a re-inspection parses to a plan whose backups agree with the
stored plan on name, type, schedule, retention and storage — in particular
when only notify lists (container-level or per-config) changed — the
coordinator does nothing: the scheduler entries and the stored plan
(including the notify lists later consulted by backup runs) stay exactly
as they were. -/
theorem notify_only_change_is_noop (env : Env) (cfgOld cfgNew : ContainerConfig)
    (jobs : SchedJobs) (c : RuntimeContainer)
    (hparse : ParseLabels c.id c.name c.labels = Except.ok cfgNew)
    (hen : cfgNew.enabled = true)
    (heq : configsEqual cfgOld.backups cfgNew.backups = true) :
    syncContainers env ⟨[(c.id, cfgOld)], jobs⟩ [c] = ⟨[(c.id, cfgOld)], jobs⟩ := by
  have hone : syncOne env ⟨[(c.id, cfgOld)], jobs⟩ c = ⟨[(c.id, cfgOld)], jobs⟩ := by
    unfold syncOne
    rw [hparse]
    simp [hen, lookupStr_cons, heq]
  show removeAbsent (List.foldl (syncOne env) ⟨[(c.id, cfgOld)], jobs⟩ [c])
    ([c].map (fun x => x.id)) = _
  rw [List.foldl_cons, List.foldl_nil, hone]
  refine removeAbsent_all_seen _ _ ?_
  intro p hp
  obtain rfl := List.mem_singleton.mp hp
  simp

/-! ## C6: volume-run container quiescence -/

theorem lookupStr_none_not_mem_keys {α : Type} {m : List (String × α)} {i : String}
    (h : lookupStr m i = none) : i ∉ m.map Prod.fst := by
  induction m with
  | nil => simp
  | cons p rest ih =>
      obtain ⟨a, v⟩ := p
      rw [lookupStr_cons] at h
      by_cases ha : a = i
      · rw [if_pos ha] at h
        cases h
      · rw [if_neg ha] at h
        simp only [List.map_cons, List.mem_cons]
        rintro (rfl | hmem)
        · exact ha rfl
        · exact ih h hmem

theorem lookupStr_of_mem_nodupKeys {α : Type} {m : List (String × α)} {i : String} {v : α}
    (hm : (i, v) ∈ m) (hn : (m.map Prod.fst).Nodup) : lookupStr m i = some v := by
  induction m with
  | nil => cases hm
  | cons p rest ih =>
      obtain ⟨a, w⟩ := p
      rw [List.map_cons, List.nodup_cons] at hn
      rcases List.mem_cons.mp hm with heq | hmem
      · injection heq with h1 h2
        subst h1; subst h2
        rw [lookupStr_cons, if_pos rfl]
      · have hai : a ≠ i := by
          rintro rfl
          exact hn.1 (List.mem_map.mpr ⟨(a, v), hmem, rfl⟩)
        rw [lookupStr_cons, if_neg hai]
        exact ih hmem hn.2

theorem mem_restartContainers {m : List (String × Bool)} {i : String} :
    i ∈ restartContainers m ↔ (i, true) ∈ m := by
  simp only [restartContainers, List.mem_map, List.mem_filter]
  constructor
  · rintro ⟨⟨a, b⟩, ⟨hmem, hb⟩, rfl⟩
    simpa [show b = true from hb] using hmem
  · intro h
    exact ⟨(i, true), ⟨h, rfl⟩, rfl⟩

theorem stopPhase_nodupKeys (stopOk : String → Bool) :
    ∀ (cs : List ContainerBrief) (m : List (String × Bool)),
      (m.map Prod.fst).Nodup → (((stopPhase stopOk cs m).1.map Prod.fst)).Nodup := by
  intro cs
  induction cs with
  | nil => intro m hm; exact hm
  | cons c rest ih =>
      intro m hm
      have happ : ∀ b : Bool, lookupStr m c.id = none →
          (((m ++ [(c.id, b)]).map Prod.fst)).Nodup := by
        intro b hnone
        rw [List.map_append]
        simp only [List.map_cons, List.map_nil]
        exact List.Nodup.append hm (List.nodup_singleton c.id)
          (by
            intro a ha hb
            rcases List.mem_singleton.mp hb with rfl
            exact lookupStr_none_not_mem_keys hnone ha)
      by_cases hin : (lookupStr m c.id).isSome
      · simpa [stopPhase, hin] using ih m hm
      · have hnone : lookupStr m c.id = none := by
          cases h : lookupStr m c.id with
          | some v => rw [h] at hin; simp at hin
          | none => rfl
        by_cases hrun : c.running
        · by_cases hok : stopOk c.id
          · simpa [stopPhase, hin, hrun, hok] using ih _ (happ true hnone)
          · simpa [stopPhase, hin, hrun, hok] using hm
        · simpa [stopPhase, hin, hrun] using ih _ (happ false hnone)

theorem stopPhase_mono (stopOk : String → Bool) :
    ∀ (cs : List ContainerBrief) (m : List (String × Bool)) (i : String) (b : Bool),
      lookupStr m i = some b → lookupStr (stopPhase stopOk cs m).1 i = some b := by
  intro cs
  induction cs with
  | nil => intro m i b h; exact h
  | cons c rest ih =>
      intro m i b h
      have happ : ∀ b' : Bool, lookupStr (m ++ [(c.id, b')]) i = some b := by
        intro b'
        rw [lookupStr_append, h]
      by_cases hin : (lookupStr m c.id).isSome
      · simpa [stopPhase, hin] using ih m i b h
      · by_cases hrun : c.running
        · by_cases hok : stopOk c.id
          · simpa [stopPhase, hin, hrun, hok] using ih _ i b (happ true)
          · simpa [stopPhase, hin, hrun, hok] using h
        · simpa [stopPhase, hin, hrun] using ih _ i b (happ false)

theorem stopPhase_lookup (stopOk : String → Bool) :
    ∀ (cs : List ContainerBrief) (m : List (String × Bool)) (i : String) (b : Bool),
      lookupStr (stopPhase stopOk cs m).1 i = some b →
      lookupStr m i = some b ∨
        (lookupStr m i = none ∧ firstObserved cs i = some b ∧
          (b = true → stopOk i = true)) := by
  intro cs
  induction cs with
  | nil => intro m i b h; exact Or.inl h
  | cons c rest ih =>
      intro m i b h
      by_cases hin : (lookupStr m c.id).isSome
      · rw [show stopPhase stopOk (c :: rest) m = stopPhase stopOk rest m by
          simp [stopPhase, hin]] at h
        rcases ih m i b h with h1 | ⟨h1, h2, h3⟩
        · exact Or.inl h1
        · have hci : c.id ≠ i := by
            rintro rfl
            rw [h1] at hin
            simp at hin
          exact Or.inr ⟨h1, by rw [firstObserved, if_neg hci]; exact h2, h3⟩
      · have hnone : lookupStr m c.id = none := by
          cases hx : lookupStr m c.id with
          | some v => rw [hx] at hin; simp at hin
          | none => rfl
        have hstep : ∀ b' : Bool, (c.running = b') → (b' = true → stopOk c.id = true) →
            lookupStr (stopPhase stopOk rest (m ++ [(c.id, b')])).1 i = some b →
              lookupStr m i = some b ∨
              (lookupStr m i = none ∧ firstObserved (c :: rest) i = some b ∧
                (b = true → stopOk i = true)) := by
          intro b' hrun hok hrec
          rcases ih _ i b hrec with h1 | ⟨h1, h2, h3⟩
          · cases hx : lookupStr m i with
            | some v =>
                have hv : some v = some b :=
                  (lookupStr_append_of_some [(c.id, b')] hx).symm.trans h1
                exact Or.inl hv
            | none =>
                have h1' : lookupStr [(c.id, b')] i = some b :=
                  (lookupStr_append_of_none [(c.id, b')] hx).symm.trans h1
                rw [lookupStr_cons] at h1'
                by_cases hci : c.id = i
                · rw [if_pos hci] at h1'
                  injection h1' with h1'
                  subst h1'
                  refine Or.inr ⟨rfl, ?_, fun ht => by subst hci; exact hok ht⟩
                  rw [firstObserved, if_pos hci, hrun]
                · rw [if_neg hci] at h1'
                  cases h1'
          · cases hx : lookupStr m i with
            | some v =>
                have hv : some v = none :=
                  (lookupStr_append_of_some [(c.id, b')] hx).symm.trans h1
                cases hv
            | none =>
                have h1' : lookupStr [(c.id, b')] i = none :=
                  (lookupStr_append_of_none [(c.id, b')] hx).symm.trans h1
                rw [lookupStr_cons] at h1'
                by_cases hci : c.id = i
                · rw [if_pos hci] at h1'
                  cases h1'
                · exact Or.inr ⟨rfl, by rw [firstObserved, if_neg hci]; exact h2, h3⟩
        by_cases hrun : c.running
        · by_cases hok : stopOk c.id
          · refine hstep true hrun (fun _ => hok) ?_
            rw [show stopPhase stopOk (c :: rest) m =
              stopPhase stopOk rest (m ++ [(c.id, true)]) by simp [stopPhase, hin, hrun, hok]]
                at h
            exact h
          · rw [show (stopPhase stopOk (c :: rest) m).1 = m by
              simp [stopPhase, hin, hrun, hok]] at h
            exact Or.inl h
        · refine hstep false (by simpa using hrun) (fun ht => by cases ht) ?_
          rw [show stopPhase stopOk (c :: rest) m =
            stopPhase stopOk rest (m ++ [(c.id, false)]) by simp [stopPhase, hin, hrun]] at h
          exact h

theorem stopPhase_complete (stopOk : String → Bool) :
    ∀ (cs : List ContainerBrief) (m : List (String × Bool)) (i : String),
      (stopPhase stopOk cs m).2 = none →
      lookupStr m i = none → firstObserved cs i = some true →
      lookupStr (stopPhase stopOk cs m).1 i = some true := by
  intro cs
  induction cs with
  | nil => intro m i _ _ hobs; cases hobs
  | cons c rest ih =>
      intro m i herr hnone hobs
      by_cases hin : (lookupStr m c.id).isSome
      · have hci : c.id ≠ i := by
          rintro rfl
          rw [hnone] at hin
          simp at hin
        rw [firstObserved, if_neg hci] at hobs
        rw [show stopPhase stopOk (c :: rest) m = stopPhase stopOk rest m by
          simp [stopPhase, hin]] at herr ⊢
        exact ih m i herr hnone hobs
      · by_cases hrun : c.running
        · by_cases hok : stopOk c.id
          · rw [show stopPhase stopOk (c :: rest) m =
              stopPhase stopOk rest (m ++ [(c.id, true)]) by
                simp [stopPhase, hin, hrun, hok]] at herr ⊢
            by_cases hci : c.id = i
            · subst hci
              refine stopPhase_mono stopOk rest _ c.id true ?_
              rw [lookupStr_append, hnone, lookupStr_cons, if_pos rfl]
            · rw [firstObserved, if_neg hci] at hobs
              refine ih _ i herr ?_ hobs
              rw [lookupStr_append, hnone, lookupStr_cons, if_neg hci]
              rfl
          · rw [show (stopPhase stopOk (c :: rest) m).2 = some
                ("failed to stop container " ++ c.id) by
              simp [stopPhase, hin, hrun, hok]] at herr
            cases herr
        · rw [show stopPhase stopOk (c :: rest) m =
            stopPhase stopOk rest (m ++ [(c.id, false)]) by
              simp [stopPhase, hin, hrun]] at herr ⊢
          by_cases hci : c.id = i
          · subst hci
            rw [firstObserved, if_pos rfl] at hobs
            injection hobs with hobs
            exact absurd hobs (by simpa using hrun)
          · rw [firstObserved, if_neg hci] at hobs
            refine ih _ i herr ?_ hobs
            rw [lookupStr_append, hnone, lookupStr_cons, if_neg hci]
            rfl

/-- C6: on every exit path of a volume backup/restore run, the containers
started again afterwards are exactly those the run observed running and
stopped itself: every restarted container was first observed running and
its stop succeeded; a container observed stopped is never started; and when
the stop phase completes, every container observed running is restarted. -/
theorem volume_run_restarts_exactly_stopped (volumes : List String)
    (usersOf : String → Option (List ContainerBrief)) (stopOk : String → Bool) :
    (∀ i, i ∈ volumeRunRestarted volumes usersOf stopOk →
        firstObserved (observationsFor usersOf volumes) i = some true ∧ stopOk i = true) ∧
    (∀ i, firstObserved (observationsFor usersOf volumes) i = some false →
        i ∉ volumeRunRestarted volumes usersOf stopOk) ∧
    ((stopPhase stopOk (observationsFor usersOf volumes) []).2 = none →
      ∀ i, firstObserved (observationsFor usersOf volumes) i = some true →
        i ∈ volumeRunRestarted volumes usersOf stopOk) := by
  set obs := observationsFor usersOf volumes with hobs
  have hfin : ∀ i, i ∈ volumeRunRestarted volumes usersOf stopOk ↔
      lookupStr (stopPhase stopOk obs []).1 i = some true := by
    intro i
    rw [volumeRunRestarted, ← hobs, mem_restartContainers]
    constructor
    · intro hm
      exact lookupStr_of_mem_nodupKeys hm
        (stopPhase_nodupKeys stopOk obs [] (by simp))
    · intro hl
      exact lookupStr_mem hl
  refine ⟨?_, ?_, ?_⟩
  · intro i hi
    rcases stopPhase_lookup stopOk obs [] i true ((hfin i).mp hi) with h | ⟨_, h2, h3⟩
    · cases h
    · exact ⟨h2, h3 rfl⟩
  · intro i hf hi
    rcases stopPhase_lookup stopOk obs [] i true ((hfin i).mp hi) with h | ⟨_, h2, _⟩
    · cases h
    · rw [hf] at h2
      cases h2
  · intro herr i hf
    exact (hfin i).mpr (stopPhase_complete stopOk obs [] i herr rfl hf)

/-- C6 (witness): a volume with one running and one already-stopped
consumer under an always-successful stop: the running one is restarted, the
stopped one is not. -/
theorem volume_run_restarts_exactly_stopped_witness :
    "a" ∈ volumeRunRestarted ["v"] usersOfX stopOkX ∧
    "b" ∉ volumeRunRestarted ["v"] usersOfX stopOkX :=
  ⟨(volume_run_restarts_exactly_stopped ["v"] usersOfX stopOkX).2.2 (by decide) "a"
      (by decide),
   (volume_run_restarts_exactly_stopped ["v"] usersOfX stopOkX).2.1 "b" (by decide)⟩

/-! ## C4 / C5: retention enforcement -/

theorem insertByNewest_perm (f : BackupFile) (l : List BackupFile) :
    (insertByNewest f l).Perm (f :: l) := by
  induction l with
  | nil => exact List.Perm.refl _
  | cons g gs ih =>
      unfold insertByNewest
      by_cases h : g.lastModified < f.lastModified
      · rw [if_pos h]
      · rw [if_neg h]
        exact (ih.cons g).trans (List.Perm.swap f g gs)

theorem mem_insertByNewest {f x : BackupFile} {l : List BackupFile} :
    x ∈ insertByNewest f l ↔ x = f ∨ x ∈ l :=
  ((insertByNewest_perm f l).mem_iff).trans List.mem_cons

theorem insertByNewest_pairwise (f : BackupFile) (l : List BackupFile)
    (h : List.Pairwise (fun a b => b.lastModified ≤ a.lastModified) l) :
    List.Pairwise (fun a b => b.lastModified ≤ a.lastModified) (insertByNewest f l) := by
  induction l with
  | nil => simp [insertByNewest]
  | cons g gs ih =>
      rw [List.pairwise_cons] at h
      unfold insertByNewest
      by_cases hlt : g.lastModified < f.lastModified
      · rw [if_pos hlt]
        refine List.Pairwise.cons ?_ (List.Pairwise.cons h.1 h.2)
        intro b hb
        rcases List.mem_cons.mp hb with rfl | hb
        · exact le_of_lt hlt
        · exact le_trans (h.1 b hb) (le_of_lt hlt)
      · rw [if_neg hlt]
        refine List.Pairwise.cons ?_ (ih h.2)
        intro b hb
        rcases mem_insertByNewest.mp hb with rfl | hb
        · exact not_lt.mp hlt
        · exact h.1 b hb

theorem sortByNewest_perm (l : List BackupFile) : (sortByNewest l).Perm l := by
  induction l with
  | nil => exact List.Perm.refl _
  | cons f fs ih =>
      exact (insertByNewest_perm f (sortByNewest fs)).trans (ih.cons f)

theorem sortByNewest_pairwise (l : List BackupFile) :
    List.Pairwise (fun a b => b.lastModified ≤ a.lastModified) (sortByNewest l) := by
  induction l with
  | nil => exact List.Pairwise.nil
  | cons f fs ih => exact insertByNewest_pairwise f (sortByNewest fs) ih

/-- C4 (amended): with the pool resolved and the listing successful,
`Enforce` sorts the listing into a descending permutation by
`last_modified`, attempts to delete every entry past the first `keep`, and
always returns `ok` with the number of deletes that succeeded — an
individual delete failure is logged and skipped, never returned as the
function's error (`enforce_delete_failure_returns_ok_cex`). -/
theorem enforce_returns_success_count (files : List BackupFile) (keep : Int)
    (delOk : String → Bool) (_hk : 0 ≤ keep) :
    (sortByNewest files).Perm files ∧
    List.Pairwise (fun a b => b.lastModified ≤ a.lastModified) (sortByNewest files) ∧
    Enforce true (Except.ok files) keep delOk =
      Except.ok ((if (files.length : Int) ≤ keep then []
        else ((sortByNewest files).drop keep.toNat).filter (fun f => delOk f.key)).length) := by
  refine ⟨sortByNewest_perm files, sortByNewest_pairwise files, ?_⟩
  by_cases h : (files.length : Int) ≤ keep
  · simp [Enforce, enforceDeleted, enforceVictims, h]
  · simp [Enforce, enforceDeleted, enforceVictims, h]

/-- C4 (counterexample): two entries, `keep = 1`, and a sink whose delete
of the victim key `b` fails: `Enforce` attempts exactly that delete, it
fails, and the function still returns `ok 0` — not the per-key delete
error the claim requires. -/
theorem enforce_delete_failure_returns_ok_cex :
    enforceVictims [⟨"a", 2⟩, ⟨"b", 1⟩] 1 = [⟨"b", 1⟩] ∧
    (fun k : String => !(k == "b")) "b" = false ∧
    Enforce true (Except.ok [⟨"a", 2⟩, ⟨"b", 1⟩]) 1 (fun k : String => !(k == "b")) =
      Except.ok 0 := by
  decide

/-- C4 (witness): the amended theorem at a concrete listing where the
single delete succeeds. -/
theorem enforce_returns_success_count_witness :
    Enforce true (Except.ok [⟨"a", 2⟩, ⟨"b", 1⟩]) 1 (fun _ => true) = Except.ok 1 := by
  rw [(enforce_returns_success_count [⟨"a", 2⟩, ⟨"b", 1⟩] 1 (fun _ => true) (by decide)).2.2]
  decide

/-- In a strictly-descending list, membership past index `keep` is exactly
having at least `keep` strictly-newer entries. -/
theorem strictDesc_mem_drop :
    ∀ (s : List BackupFile),
      List.Pairwise (fun a b => b.lastModified < a.lastModified) s →
      ∀ (keep : Nat), ∀ f ∈ s,
        (f ∈ s.drop keep ↔
          keep ≤ s.countP (fun g => decide (f.lastModified < g.lastModified))) := by
  intro s
  induction s with
  | nil => intro _ keep f hf; cases hf
  | cons x xs ih =>
      intro hpair keep f hf
      rw [List.pairwise_cons] at hpair
      rcases List.mem_cons.mp hf with rfl | hfx
      · have hx : f ∉ xs := fun hmem => lt_irrefl _ (hpair.1 f hmem)
        have hcount : (f :: xs).countP
            (fun g => decide (f.lastModified < g.lastModified)) = 0 := by
          rw [List.countP_eq_zero]
          intro g hg
          rcases List.mem_cons.mp hg with rfl | hg
          · simp
          · simp only [decide_eq_true_eq]
            exact not_lt.mpr (le_of_lt (hpair.1 g hg))
        rw [hcount]
        cases keep with
        | zero => simp
        | succ k =>
            rw [List.drop_succ_cons]
            constructor
            · intro hmem
              exact absurd (List.mem_of_mem_drop hmem) hx
            · intro hle
              omega
      · have hfx' : f.lastModified < x.lastModified := hpair.1 f hfx
        have hcount : (x :: xs).countP (fun g => decide (f.lastModified < g.lastModified)) =
            xs.countP (fun g => decide (f.lastModified < g.lastModified)) + 1 := by
          rw [List.countP_cons]
          simp [hfx']
        rw [hcount]
        cases keep with
        | zero => simp [hf]
        | succ k =>
            rw [List.drop_succ_cons, ih hpair.2 k f hfx]
            omega

/-- C5: after retention enforcement over the post-backup listing with
`retention = N ≥ 1`, all of the sink's list and delete operations
succeeding, at most `N` entries remain, and the deleted entries are
exactly those beyond the `N` newest by `last_modified` (timestamps assumed
pairwise distinct). -/
theorem retention_bound_after_enforce (files : List BackupFile) (keep : Int)
    (hk : 1 ≤ keep)
    (hdist : files.Pairwise (fun a b => a.lastModified ≠ b.lastModified)) :
    (remainingAfterEnforce files keep (fun _ => true)).length ≤ keep.toNat ∧
    ∀ f ∈ files,
      (f ∈ enforceDeleted files keep (fun _ => true) ↔
        keep.toNat ≤ files.countP (fun g => decide (f.lastModified < g.lastModified))) := by
  have hperm : (sortByNewest files).Perm files := sortByNewest_perm files
  have hpairge := sortByNewest_pairwise files
  have hpairne : (sortByNewest files).Pairwise
      (fun a b => a.lastModified ≠ b.lastModified) := by
    refine (hperm.pairwise_iff ?_).mpr hdist
    intro a b hab
    exact hab.symm
  have hstrict : (sortByNewest files).Pairwise
      (fun a b => b.lastModified < a.lastModified) := by
    refine (hpairge.and hpairne).imp ?_
    rintro a b ⟨hge, hne⟩
    exact lt_of_le_of_ne hge (fun hc => hne hc.symm)
  have hdel : enforceDeleted files keep (fun _ => true) = enforceVictims files keep := by
    simp [enforceDeleted]
  by_cases h : (files.length : Int) ≤ keep
  · have hvic : enforceVictims files keep = [] := by simp [enforceVictims, h]
    constructor
    · have hrem : (remainingAfterEnforce files keep (fun _ => true)).length ≤
          files.length := List.length_filter_le _ _
      omega
    · intro f hf
      rw [hdel, hvic]
      simp only [List.not_mem_nil, false_iff, not_le]
      have hlt : files.countP (fun g => decide (f.lastModified < g.lastModified)) <
          files.length := by
        rw [List.countP_eq_length_filter]
        rw [List.length_filter_lt_length_iff_exists]
        exact ⟨f, hf, by simp⟩
      omega
  · have hvic : enforceVictims files keep = (sortByNewest files).drop keep.toNat := by
      simp [enforceVictims, h]
    constructor
    · have hcnt : (remainingAfterEnforce files keep (fun _ => true)).length =
          files.countP
            (fun f => decide (f ∉ enforceDeleted files keep (fun _ => true))) := by
        rw [remainingAfterEnforce, ← List.countP_eq_length_filter]
      rw [hcnt, ← hperm.countP_eq]
      conv_lhs => rw [← List.take_append_drop keep.toNat (sortByNewest files)]
      rw [List.countP_append]
      have hdrop : ((sortByNewest files).drop keep.toNat).countP
          (fun f => decide (f ∉ enforceDeleted files keep (fun _ => true))) = 0 := by
        rw [List.countP_eq_zero]
        intro g hg
        simp only [decide_eq_true_eq, not_not]
        rw [hdel, hvic]
        exact hg
      rw [hdrop]
      have htake := List.countP_le_length
        (p := fun f => decide (f ∉ enforceDeleted files keep (fun _ => true)))
        (l := (sortByNewest files).take keep.toNat)
      have hlen : ((sortByNewest files).take keep.toNat).length ≤ keep.toNat :=
        List.length_take_le _ _
      omega
    · intro f hf
      rw [hdel, hvic, strictDesc_mem_drop (sortByNewest files) hstrict keep.toNat f
        (hperm.mem_iff.mpr hf), hperm.countP_eq]

/-- C5 (witness): the retention bound at a concrete two-entry listing with
`retention = 1`. -/
theorem retention_bound_after_enforce_witness :
    (remainingAfterEnforce [⟨"a", 2⟩, ⟨"b", 1⟩] 1 (fun _ => true)).length ≤ (1 : Int).toNat :=
  (retention_bound_after_enforce [⟨"a", 2⟩, ⟨"b", 1⟩] 1 (by decide) (by decide)).1

/-! ## C1: volume restore containment -/

theorem restoreStep_written (vp : List (String × String)) (fs : RestoreFS) (e : TarEntry)
    (p : String) (hp : p ∈ (restoreStep vp fs e).1.written) :
    p ∈ fs.written ∨ ∃ pr ∈ vp, isSubPath pr.2 p = true := by
  by_cases hname : e.name = ""
  · simp only [restoreStep, if_pos hname] at hp
    exact Or.inl hp
  · cases hv : lookupStr vp (splitVolumeName e.name).1 with
    | none =>
        simp only [restoreStep, if_neg hname, hv] at hp
        exact Or.inl hp
    | some volumePath =>
        by_cases hsub :
            isSubPath volumePath (filepathJoin volumePath (splitVolumeName e.name).2) = true
        · by_cases hcl : fs.cleared.contains (splitVolumeName e.name).1
          · cases hflag : e.typeflag <;>
              simp only [restoreStep, if_neg hname, hv, hsub, hcl, hflag, if_true,
                not_true_eq_false, if_false, List.mem_append, List.mem_singleton] at hp <;>
              first
                | exact Or.inl hp
                | (rcases hp with hp | rfl
                   · exact Or.inl hp
                   · exact Or.inr ⟨((splitVolumeName e.name).1, volumePath),
                       lookupStr_mem hv, hsub⟩)
          · cases hflag : e.typeflag <;>
              simp only [restoreStep, if_neg hname, hv, hsub, hcl, hflag, if_true,
                not_true_eq_false, if_false, List.mem_append, List.mem_singleton] at hp <;>
              first
                | exact Or.inl hp
                | (rcases hp with hp | rfl
                   · exact Or.inl hp
                   · exact Or.inr ⟨((splitVolumeName e.name).1, volumePath),
                       lookupStr_mem hv, hsub⟩)
        · by_cases hcl : fs.cleared.contains (splitVolumeName e.name).1 <;>
            simp only [restoreStep, if_neg hname, hv, hsub, hcl, if_true, if_false,
              not_false_eq_true] at hp <;>
            exact Or.inl hp

theorem restoreEntries_written (vp : List (String × String)) :
    ∀ (entries : List TarEntry) (fs : RestoreFS) (p : String),
      p ∈ (restoreEntries vp fs entries).1.written →
      p ∈ fs.written ∨ ∃ pr ∈ vp, isSubPath pr.2 p = true := by
  intro entries
  induction entries with
  | nil => intro fs p hp; exact Or.inl hp
  | cons e es ih =>
      intro fs p hp
      cases hstep : restoreStep vp fs e with
      | mk fs1 err =>
          cases err with
          | some msg =>
              rw [show restoreEntries vp fs (e :: es) = (fs1, some msg) by
                simp [restoreEntries, hstep]] at hp
              exact restoreStep_written vp fs e p (by rw [hstep]; exact hp)
          | none =>
              rw [show restoreEntries vp fs (e :: es) = restoreEntries vp fs1 es by
                simp [restoreEntries, hstep]] at hp
              rcases ih fs1 p hp with h | h
              · exact restoreStep_written vp fs e p (by rw [hstep]; exact h)
              · exact Or.inr h

/-- C1 (amended): every filesystem write `Restore` performs targets a path
inside one of the container's mapped volume roots — an escaping entry is
refused with an error before anything is written for it, and no later
entry is processed. Changes already made are not rolled back, however:
the offending entry's volume has been cleared by then
(`restore_escape_clears_volume_cex`). -/
theorem restore_writes_contained (mounts : List MountInfo) (entries : List TarEntry) :
    ((VolumeRestore mounts entries).1.written).all
      (fun p => (volumePathsOf mounts).any (fun pr => isSubPath pr.2 p)) = true := by
  rw [List.all_eq_true]
  intro p hp
  rw [List.any_eq_true]
  by_cases hm : mounts.isEmpty
  · simp only [VolumeRestore, if_pos hm] at hp
    cases hp
  · by_cases hvp : (volumePathsOf mounts).isEmpty
    · simp only [VolumeRestore, if_neg hm, if_pos hvp] at hp
      cases hp
    · simp only [VolumeRestore, if_neg hm, if_neg hvp] at hp
      rcases restoreEntries_written (volumePathsOf mounts) entries ⟨[], []⟩ p hp with h | h
      · cases h
      · rcases h with ⟨pr, hpr, hsub⟩
        exact ⟨pr, hpr, hsub⟩

/-- C1 (counterexample): a single-entry archive whose entry resolves
outside its volume root. `Restore` does return an error, but it has
already cleared the volume's contents before the containment check ran —
so filesystem changes to the volume do happen. -/
theorem restore_escape_clears_volume_cex :
    (VolumeRestore [⟨"volume", "vol", "/data/vol"⟩]
      [⟨"vol/../evil", TarTypeflag.reg⟩]).2 = some "invalid path in archive: vol/../evil" ∧
    (VolumeRestore [⟨"volume", "vol", "/data/vol"⟩]
      [⟨"vol/../evil", TarTypeflag.reg⟩]).1.cleared = ["vol"] ∧
    (VolumeRestore [⟨"volume", "vol", "/data/vol"⟩]
      [⟨"vol/../evil", TarTypeflag.reg⟩]).1.written = [] := by
  decide

/-! ## C7: reserved config names are ignored -/

theorem mem_groupInsert {gs : List (String × List (String × String))}
    {name prop val : String} {g : String × List (String × String)}
    (hg : g ∈ groupInsert gs name prop val) : g ∈ gs ∨ g.1 = name := by
  unfold groupInsert at hg
  cases h : lookupStr gs name with
  | some bucket =>
      rw [h] at hg
      simp only [insertKey] at hg
      rcases List.mem_append.mp hg with hg | hg
      · exact Or.inl (List.mem_of_mem_filter hg)
      · obtain rfl := List.mem_singleton.mp hg
        exact Or.inr rfl
  | none =>
      rw [h] at hg
      rcases List.mem_append.mp hg with hg | hg
      · exact Or.inl hg
      · obtain rfl := List.mem_singleton.mp hg
        exact Or.inr rfl

theorem groupLabels_not_reserved (pfx : String) (labels : List (String × String)) :
    ∀ g ∈ groupLabels pfx labels, reservedProperties g.1 = false := by
  unfold groupLabels
  have main : ∀ (ls : List (String × String)) (init : List (String × List (String × String))),
      (∀ g ∈ init, reservedProperties g.1 = false) →
      ∀ g ∈ ls.foldl
        (fun gs kv =>
          if strStartsWith kv.1 (pfx ++ ".") then
            match splitFirstChar '.' (strDropChars kv.1 (pfx ++ ".").length) with
            | none => gs
            | some (configName, property) =>
                if reservedProperties configName then gs
                else groupInsert gs configName property kv.2
          else gs)
        init, reservedProperties g.1 = false := by
    intro ls
    induction ls with
    | nil => intro init hinit g hg; exact hinit g hg
    | cons kv rest ih =>
        intro init hinit g hg
        rw [List.foldl_cons] at hg
        refine ih _ ?_ g hg
        intro q hq
        by_cases hpre : strStartsWith kv.1 (pfx ++ ".") = true
        · cases hsplit : splitFirstChar '.' (strDropChars kv.1 (pfx ++ ".").length) with
          | none =>
              simp only [if_pos hpre, hsplit] at hq
              exact hinit q hq
          | some nameProp =>
              obtain ⟨configName, property⟩ := nameProp
              by_cases hres : reservedProperties configName = true
              · simp only [if_pos hpre, hsplit, if_pos hres] at hq
                exact hinit q hq
              · simp only [if_pos hpre, hsplit, if_neg hres] at hq
                rcases mem_groupInsert hq with hq | hq
                · exact hinit q hq
                · rw [hq]
                  exact Bool.eq_false_iff.mpr hres
        · simp only [if_neg hpre] at hq
          exact hinit q hq
  intro g hg
  exact main labels [] (by intro q hq; cases hq) g hg

theorem parseConfigGroup_name {name containerName : String}
    {props : List (String × String)} {b : BackupConfig}
    (h : parseConfigGroup name containerName props = Except.ok b) : b.name = name := by
  simp only [parseConfigGroup] at h
  split at h
  · cases h
  · split at h
    · cases h
    · split at h
      · cases h
      · injection h with h
        subst h
        rfl

theorem parseGroups_mem {containerName : String} :
    ∀ {gs : List (String × List (String × String))} {bs : List BackupConfig},
      parseGroups containerName gs = Except.ok bs →
      ∀ b ∈ bs, ∃ g ∈ gs, parseConfigGroup g.1 containerName g.2 = Except.ok b := by
  intro gs
  induction gs with
  | nil =>
      intro bs h b hb
      injection h with h
      subst h
      cases hb
  | cons g rest ih =>
      intro bs h b hb
      simp only [parseGroups] at h
      cases h1 : parseConfigGroup g.1 containerName g.2 with
      | error e => rw [h1] at h; cases h
      | ok b1 =>
          rw [h1] at h
          cases h2 : parseGroups containerName rest with
          | error e => rw [h2] at h; cases h
          | ok bs1 =>
              rw [h2] at h
              injection h with h
              subst h
              rcases List.mem_cons.mp hb with rfl | hb
              · exact ⟨g, List.mem_cons_self g rest, h1⟩
              · rcases ih h2 b hb with ⟨g', hg', hok⟩
                exact ⟨g', List.mem_cons_of_mem g hg', hok⟩

theorem insertByName_perm (b : BackupConfig) (l : List BackupConfig) :
    (insertByName b l).Perm (b :: l) := by
  induction l with
  | nil => exact List.Perm.refl _
  | cons c cs ih =>
      unfold insertByName
      by_cases h : b.name < c.name
      · rw [if_pos h]
      · rw [if_neg h]
        exact (ih.cons c).trans (List.Perm.swap b c cs)

theorem sortByName_perm (l : List BackupConfig) : (sortByName l).Perm l := by
  induction l with
  | nil => exact List.Perm.refl _
  | cons b bs ih =>
      exact (insertByName_perm b (sortByName bs)).trans (ih.cons b)

/-- C7: a label whose config-name segment is a reserved property name can
never contribute a `BackupConfig` — every parsed plan's config names avoid
the reserved set — while the spec's scenario (an `enable.type=foo` label
next to a valid `db` config) still parses the `db` config. -/
theorem reserved_name_rejection :
    (∀ (containerID containerName : String) (labels : List (String × String))
        (cfg : ContainerConfig),
        ParseLabels containerID containerName labels = Except.ok cfg →
        ∀ b ∈ cfg.backups, reservedProperties b.name = false) ∧
    ParseLabels "abc123" "mycontainer"
      [("docker-backup.enable", "true"), ("docker-backup.enable.type", "foo"),
       ("docker-backup.db.type", "postgres"), ("docker-backup.db.schedule", "0 3 * * *")] =
      Except.ok ⟨"abc123", "mycontainer", true, [], [dbConfig]⟩ := by
  constructor
  · intro cid cname labels cfg h b hb
    simp only [ParseLabels] at h
    split at h
    · cases h
    · split at h
      · injection h with h
        subst h
        cases hb
      · cases hp : parseNamedConfigs "docker-backup" cname labels with
        | error e => rw [hp] at h; cases h
        | ok backups =>
            rw [hp] at h
            split at h
            · rename_i e heq
              cases heq
            · rename_i bs heq
              injection heq with heq
              subst heq
              split at h
              · cases h
              · injection h with h
                subst h
                simp only [parseNamedConfigs] at hp
                cases hg : parseGroups cname (groupLabels "docker-backup" labels) with
                | error e => rw [hg] at hp; cases hp
                | ok bs2 =>
                    rw [hg] at hp
                    injection hp with hp
                    have hb2 : b ∈ bs2 := by
                      rw [← hp] at hb
                      exact (sortByName_perm bs2).mem_iff.mp hb
                    rcases parseGroups_mem hg b hb2 with ⟨g, hgmem, hok⟩
                    rw [parseConfigGroup_name hok]
                    exact groupLabels_not_reserved "docker-backup" labels g hgmem
  · decide

/-- C7 (witness): the universal part applied at the scenario's labels, via
the concrete parse result proved in the same theorem. -/
theorem reserved_name_rejection_witness :
    reservedProperties dbConfig.name = false :=
  reserved_name_rejection.1 "abc123" "mycontainer"
    [("docker-backup.enable", "true"), ("docker-backup.enable.type", "foo"),
     ("docker-backup.db.type", "postgres"), ("docker-backup.db.schedule", "0 3 * * *")]
    ⟨"abc123", "mycontainer", true, [], [dbConfig]⟩
    reserved_name_rejection.2 dbConfig (by decide)

/-- C10 (witness): labels that change only the container-level notify list
(telegram → discord) leave the tracked state—and its stored notify list—
untouched. -/
theorem notify_only_change_is_noop_witness :
    cfgOldX.notify = ["telegram"] ∧ cfgNewX.notify = ["discord"] ∧
    syncContainers envX ⟨[("X", cfgOldX)], [("X:db", "0 3 * * *")]⟩
      [⟨"X", "x", labelsNotifyX⟩] = ⟨[("X", cfgOldX)], [("X:db", "0 3 * * *")]⟩ :=
  ⟨by decide, by decide,
    notify_only_change_is_noop envX cfgOldX cfgNewX [("X:db", "0 3 * * *")]
      ⟨"X", "x", labelsNotifyX⟩ (by decide) (by decide) (by decide)⟩

/-! ## C8: backup key injectivity -/

theorem strData_append (s t : String) : (s ++ t).data = s.data ++ t.data := by
  cases s
  cases t
  rfl

theorem charsToStr_data (l : List Char) : (charsToStr l).data = l := rfl

theorem digitChar_fin_inj : ∀ a b : Fin 10, digitChar a.val = digitChar b.val → a = b := by
  decide

theorem digitChar_inj {a b : Nat} (ha : a ≤ 9) (hb : b ≤ 9)
    (h : digitChar a = digitChar b) : a = b := by
  have h2 := digitChar_fin_inj ⟨a, by omega⟩ ⟨b, by omega⟩ h
  simpa using congrArg Fin.val h2

/-- C8: for a fixed container, config and extension, the generated key
`container/config/YYYY-MM-DD/HHMMSS.ext` determines the wall-clock instant
at one-second resolution — two backups of the same container and config at
instants that differ at one-second resolution produce distinct keys. -/
theorem generateBackupKey_injective (c p ext : String) (t1 t2 : DateTime)
    (h1 : validDateTime t1) (h2 : validDateTime t2)
    (heq : generateBackupKey c p ext t1 = generateBackupKey c p ext t2) : t1 = t2 := by
  obtain ⟨y1, mo1, d1, hh1, mi1, s1⟩ := t1
  obtain ⟨y2, mo2, d2, hh2, mi2, s2⟩ := t2
  obtain ⟨hy1, hmo1l, hmo1, hd1l, hd1, hhh1, hmi1, hs1⟩ := h1
  obtain ⟨hy2, hmo2l, hmo2, hd2l, hd2, hhh2, hmi2, hs2⟩ := h2
  dsimp only at hy1 hmo1l hmo1 hd1l hd1 hhh1 hmi1 hs1
  dsimp only at hy2 hmo2l hmo2 hd2l hd2 hhh2 hmi2 hs2
  have hslash : ("/" : String).data = ['/'] := rfl
  have hdash : ("-" : String).data = ['-'] := rfl
  have hd := congrArg String.data heq
  simp only [generateBackupKey, formatDate, formatHHMMSS, pad4, pad2, strData_append,
    charsToStr_data, hslash, hdash, List.append_assoc, List.cons_append,
    List.nil_append] at hd
  have e1 := List.append_cancel_left hd
  injection e1 with e1h e1
  have e2 := List.append_cancel_left e1
  simp only [List.cons.injEq] at e2
  obtain ⟨-, ey1, ey2, ey3, ey4, -, em1, em2, -, ed1, ed2, -, eh1, eh2, emi1, emi2,
    es1, es2, -⟩ := e2
  have qy1 := digitChar_inj (by omega) (by omega) ey1
  have qy2 := digitChar_inj (by omega) (by omega) ey2
  have qy3 := digitChar_inj (by omega) (by omega) ey3
  have qy4 := digitChar_inj (by omega) (by omega) ey4
  have qm1 := digitChar_inj (by omega) (by omega) em1
  have qm2 := digitChar_inj (by omega) (by omega) em2
  have qd1 := digitChar_inj (by omega) (by omega) ed1
  have qd2 := digitChar_inj (by omega) (by omega) ed2
  have qh1 := digitChar_inj (by omega) (by omega) eh1
  have qh2 := digitChar_inj (by omega) (by omega) eh2
  have qmi1 := digitChar_inj (by omega) (by omega) emi1
  have qmi2 := digitChar_inj (by omega) (by omega) emi2
  have qs1 := digitChar_inj (by omega) (by omega) es1
  have qs2 := digitChar_inj (by omega) (by omega) es2
  simp only [DateTime.mk.injEq]
  refine ⟨by omega, by omega, by omega, by omega, by omega, by omega⟩

/-- C8 (witness): the injectivity theorem applied at a concrete instant. -/
theorem generateBackupKey_injective_witness :
    DateTime.mk 2024 5 1 3 0 0 = DateTime.mk 2024 5 1 3 0 0 :=
  generateBackupKey_injective "web" "db" ".tar.zst" ⟨2024, 5, 1, 3, 0, 0⟩
    ⟨2024, 5, 1, 3, 0, 0⟩ (by decide) (by decide) (by decide)

end DockerBackup

/-! Model validation against the repository's own test vectors
(`scheduler_test.go` cron schedules, `volume_test.go` `TestIsSubPath`) and
small concrete runs of the embedded operations. -/

section ModelValidation
open DockerBackup
example : splitChar '.' "a.b.c" = ["a", "b", "c"] := by decide
example : goFields " 0 3 * * * " = ["0", "3", "*", "*", "*"] := by decide
example : goTrim "  x y  " = "x y" := by decide
example : goAtoi "-5" = some (-5) := by decide
example :
    (ParseLabels "abc" "c"
      [("docker-backup.enable", "true"),
       ("docker-backup.db.type", "postgres"),
       ("docker-backup.db.schedule", "0 3 * * *")]).isOk = true := by decide
example : cronValid "* * * * *" = true := by decide
example : cronValid "0 3 * * *" = true := by decide
example : cronValid "*/15 * * * *" = true := by decide
example : cronValid "30 4 1,15 * *" = true := by decide
example : cronValid "" = false := by decide
example : cronValid "invalid" = false := by decide
example : cronValid "* * *" = false := by decide
example : cronValid "* * * * * *" = false := by decide
example : cronValid "60 * * * *" = false := by decide
example : cronValid "* 24 * * *" = false := by decide
example : cronValid "* * 32 * *" = false := by decide
example : cronValid "* * * 13 *" = false := by decide
example : cronValid "* * * * 7" = false := by decide
example : cronValid "@hourly" = false := by decide
example : cronValid "0 0 * jan sun" = true := by decide
example : filepathClean "/a/../../b" = "/b" := by decide
example : filepathClean "a/../../b" = "../b" := by decide
example : filepathClean "/data/vol/../other" = "/data/other" := by decide
example : filepathClean "a/" = "a" := by decide
example : filepathClean "." = "." := by decide
example : filepathClean "/" = "/" := by decide
example : isSubPath "/data" "/data/file.txt" = true := by decide
example : isSubPath "/data" "/data/subdir/file.txt" = true := by decide
example : isSubPath "/data" "/data" = true := by decide
example : isSubPath "/data" "/data2/file.txt" = false := by decide
example : isSubPath "/data" "/other/file.txt" = false := by decide
example : isSubPath "/data" "/dat" = false := by decide
example : isSubPath "/data/vol" "/data/vol/../other" = false := by decide
example :
    VolumeRestore [⟨"volume", "vol", "/data/vol"⟩] [⟨"vol/../evil", TarTypeflag.reg⟩] =
      (⟨["vol"], []⟩, some "invalid path in archive: vol/../evil") := by decide
example :
    VolumeRestore [⟨"volume", "vol", "/data/vol"⟩]
      [⟨"vol/a.txt", TarTypeflag.reg⟩, ⟨"vol/sub", TarTypeflag.dir⟩] =
      (⟨["vol"], ["/data/vol/a.txt", "/data/vol/sub"]⟩, none) := by decide
end ModelValidation
